import Mathlib

/-!
# Verification of the portfolio-manager backend

Shallow embedding of the backend's pure logic, translated from the Python
sources:

* `src/backend/app/services/image_service.py`  (namespace `ImageService`)
* `src/backend/index.py`                       (namespace `IndexApp`)
* `src/backend/app/providers/github/github_provider.py` (namespace `GitHubProvider`)
* `src/backend/app/routers/projects.py`        (namespace `Routers`)

Machine text is modelled as `List Char` / `String`, random draws as explicit
streams passed in as arguments, time as integer seconds, and the GitHub
content store as a finite map from paths to revisions/contents.  Python's
`json.dumps` / `json.loads` (used by the providers) are modelled in namespace
`Js` with JSON numbers restricted to integers (floats are outside the
embedding).
-/

namespace Portfolio

/-- Left bracket-brace character, written numerically. -/
def lbrace : Char := Char.ofNat 123

/-- Right bracket-brace character, written numerically. -/
def rbrace : Char := Char.ofNat 125

/-- Last `/`-separated component of a string, as Python's `s.split("/")[-1]`:
the suffix after the final slash (the whole string when there is none). -/
def lastComp (s : String) : String := ⟨(s.data.reverse.takeWhile (· ≠ '/')).reverse⟩

/-- Python's `str.lower()` restricted to character-wise lowering. -/
def lowerStr (s : String) : String := ⟨s.data.map Char.toLower⟩

/-- Python's `str.startswith`: `leadsWith p l` holds when `p` begins `l`. -/
def leadsWith : List Char → List Char → Bool
  | [], _ => true
  | _ :: _, [] => false
  | p :: ps, c :: cs => p = c && leadsWith ps cs

namespace ImageService

/-- From `image_service.py`: `MAX_IMAGE_SIZE = 2 * 1024 * 1024` (2 MB). -/
def MAX_IMAGE_SIZE : Nat := 2 * 1024 * 1024

/-- From `image_service.py`: `ALLOWED_MIME_TYPES`. -/
def ALLOWED_MIME_TYPES : List String :=
  ["image/jpeg", "image/png", "image/webp", "image/gif"]

/-- From `image_service.py`: `ALLOWED_EXTENSIONS`. -/
def ALLOWED_EXTENSIONS : List String := [".jpg", ".jpeg", ".png", ".webp", ".gif"]

/-- An uploaded file as the validators see it: declared filename, declared
MIME type, and byte length of the content. -/
structure UploadedFile where
  filename : String
  content_type : String
  size : Nat
deriving DecidableEq, Repr

/-- `image_service.validate_image`: returns `(is_valid, error_message)`.
Only the declared MIME type is checked; the extension is never consulted. -/
def validate_image (file : UploadedFile) : Bool × String :=
  if file.content_type ∈ ALLOWED_MIME_TYPES then (true, "")
  else (false, "Invalid image type")

/-- Predicate for characters kept by `sanitize_filename`'s character filter,
the effect of `re.sub(r'[^a-z0-9_-]', '', name)` on a lowercased string. -/
def isKeptChar (c : Char) : Bool :=
  (('a' ≤ c && c ≤ 'z') || ('0' ≤ c && c ≤ '9') || c = '_' || c = '-')

mutual

/-- Collapse each run of underscores to a single underscore, the effect of
`re.sub(r'_+', '_', name)`. -/
def collapseScores : List Char → List Char
  | [] => []
  | c :: cs => if c = '_' then '_' :: dropScores cs else c :: collapseScores cs

/-- Skip the remainder of a run of underscores. -/
def dropScores : List Char → List Char
  | [] => []
  | c :: cs => if c = '_' then dropScores cs else c :: collapseScores cs

end

/-- Remove every leading and trailing occurrence of `t`, Python's
`str.strip(t)` for a single-character argument. -/
def stripChar (t : Char) (l : List Char) : List Char :=
  ((l.dropWhile (· = t)).reverse.dropWhile (· = t)).reverse

/-- `image_service.sanitize_filename`: lowercase, keep `[a-z0-9_-]`, collapse
runs of `_`, strip leading/trailing `_`, defaulting to `"project"`. -/
def sanitize_filename (name : String) : String :=
  let cs := (name.data.map Char.toLower).filter isKeptChar
  let cs := stripChar '_' (collapseScores cs)
  if cs.isEmpty then "project" else ⟨cs⟩

/-- One candidate filename of `generate_unique_filename`:
`f"{sanitized_name}_{uid}.webp"`. -/
def candidate (sanitized uid : String) : String :=
  sanitized ++ "_" ++ uid ++ ".webp"

/-- The `for attempt in range(10)` loop of `generate_unique_filename`:
`uids i` is the value of the `i`-th call to `generate_random_uid()`. -/
def tryAttempts (sanitized : String) (existing : List String)
    (uids : Nat → String) : Nat → Nat → Option String
  | _, 0 => none
  | i, r + 1 =>
    let f := candidate sanitized (uids i)
    if f ∈ existing then tryAttempts sanitized existing uids (i + 1) r else some f

/-- `image_service.generate_unique_filename`.  The successive
`generate_random_uid()` draws are the stream `uids`; the fallback
`secrets.token_hex(8)` draw is `fallbackUid`. -/
def generate_unique_filename (project_name : String) (existing_filenames : List String)
    (uids : Nat → String) (fallbackUid : String) : String :=
  let sanitized := sanitize_filename project_name
  match tryAttempts sanitized existing_filenames uids 0 10 with
  | some f => f
  | none => candidate sanitized fallbackUid

/-- Decoded-image modes relevant to the two converters. -/
inductive ImgMode where
  | RGB | RGBA | LA | P | L | other
deriving DecidableEq, Repr

/-- Output encodings. -/
inductive ImgFormat where
  | WEBP | other
deriving DecidableEq, Repr

/-- A decodable uploaded image: byte length of the encoded input plus the
decoded pixel dimensions and mode. -/
structure InputImage where
  width : Nat
  height : Nat
  mode : ImgMode
  bytesLen : Nat
deriving DecidableEq, Repr

/-- Result of re-encoding. -/
structure OutputImage where
  format : ImgFormat
  mode : ImgMode
  width : Nat
  height : Nat
deriving DecidableEq, Repr

/-- `image_service.convert_to_webp`: size gate at 2 MB, flatten
`RGBA`/`LA`/`P` onto a white RGB background (dimensions unchanged), re-encode
as WebP.  No resizing is performed by this function. -/
def convert_to_webp (img : InputImage) : Except String OutputImage :=
  if img.bytesLen > MAX_IMAGE_SIZE then
    .error "File size exceeds limit"
  else
    let mode := if img.mode = .RGBA ∨ img.mode = .LA ∨ img.mode = .P then ImgMode.RGB else img.mode
    .ok { format := .WEBP, mode := mode, width := img.width, height := img.height }

end ImageService

namespace IndexApp

/-- From `index.py`: `ALLOWED_EXTENSIONS`. -/
def ALLOWED_EXTENSIONS : List String := [".jpg", ".jpeg", ".png", ".gif", ".webp", ".bmp"]

/-- From `index.py`: `MAX_IMAGE_SIZE = 10 * 1024 * 1024` (10 MB). -/
def MAX_IMAGE_SIZE : Nat := 10 * 1024 * 1024

/-- The extension part of `os.path.splitext`: the suffix from the last `.` of
the final path component, provided that dot follows at least one non-dot
character of that component (so `".hidden"` has no extension). -/
def splitextExt (s : String) : String :=
  let base := ((s.data.reverse.takeWhile (· ≠ '/')).reverse)
  let trimmed := base.dropWhile (· = '.')
  if trimmed.any (· = '.') then
    ⟨'.' :: (trimmed.reverse.takeWhile (· ≠ '.')).reverse⟩
  else ""

/-- `index.py`'s `validate_image`: requires a filename and an allow-listed
extension of the lowercased filename.  The declared MIME type is never
consulted, and no size check happens here. -/
def validate_image (file : ImageService.UploadedFile) : Except String Unit :=
  if file.filename = "" then .error "No filename provided"
  else
    let ext := splitextExt (lowerStr file.filename)
    if ext ∈ ALLOWED_EXTENSIONS then .ok () else .error "Invalid file type"

/-- `index.py`'s `convert_to_webp`: size gate at 10 MB, convert `RGBA`/`P` to
RGB, then if the longer edge exceeds `max_size` scale both dimensions by
`max_size / max(width, height)` (Python computes the ratio in floating point
and truncates with `int`; modelled here as exact rational scaling with floor,
i.e. `Nat` division), and re-encode as WebP.  The Python default for
`max_size` is 1200. -/
def convert_to_webp (img : ImageService.InputImage) (max_size : Nat) :
    Except String ImageService.OutputImage :=
  if img.bytesLen > MAX_IMAGE_SIZE then
    .error "File too large"
  else
    let mode := if img.mode = .RGBA ∨ img.mode = .P then ImageService.ImgMode.RGB else img.mode
    let m := max img.width img.height
    if m > max_size then
      .ok { format := .WEBP, mode := mode,
            width := img.width * max_size / m, height := img.height * max_size / m }
    else
      .ok { format := .WEBP, mode := mode, width := img.width, height := img.height }

mutual

/-- Replace a maximal run of characters outside `[a-z0-9]` by a single `-`,
the effect of `re.sub(r'[^a-z0-9]+', '-', s)` on a lowercased string. -/
def squashNonAlnum : List Char → List Char
  | [] => []
  | c :: cs =>
    if (('a' ≤ c && c ≤ 'z') || ('0' ≤ c && c ≤ '9')) then c :: squashNonAlnum cs
    else '-' :: skipNonAlnum cs

/-- Skip the remainder of a run of non-alphanumeric characters. -/
def skipNonAlnum : List Char → List Char
  | [] => []
  | c :: cs =>
    if (('a' ≤ c && c ≤ 'z') || ('0' ≤ c && c ≤ '9')) then c :: squashNonAlnum cs
    else skipNonAlnum cs

end

/-- The slug of `index.py`'s `generate_image_filename`:
`re.sub(r'[^a-z0-9]+', '-', project_name.lower()).strip('-')[:30]`. -/
def slugOf (project_name : String) : String :=
  ⟨(ImageService.stripChar '-' (squashNonAlnum (project_name.data.map Char.toLower))).take 30⟩

/-- `index.py`'s `generate_image_filename`: one random draw
(`secrets.token_hex(4)`, passed in as `tok`), no collision check of any kind.
-/
def generate_image_filename (project_name : String) (tok : String) : String :=
  slugOf project_name ++ "-" ++ tok ++ ".webp"

/-- Decoded JWT payload.  `iat`/`exp` are seconds since the epoch; the
signature and base64 transport are outside the embedding, so a token is
identified with its payload. -/
structure TokenPayload where
  sub : String
  uid : String
  role : String
  iat : Int
  exp : Int
deriving DecidableEq, Repr

/-- `index.py`'s `create_token`: full-duration token issued at `now` with
`exp = now + JWT_EXPIRATION_MINUTES minutes`. -/
def create_token (expirationMinutes : Int) (now : Int) (user_id role : String) : TokenPayload :=
  { sub := user_id, uid := user_id, role := role, iat := now,
    exp := now + expirationMinutes * 60 }

/-- `index.py`'s `decode_token` on a well-signed token: PyJWT rejects a token
whose `exp` is not in the future. -/
def decode_token (now : Int) (p : TokenPayload) : Except String TokenPayload :=
  if p.exp ≤ now then .error "Token expired" else .ok p

/-- `index.py`'s `require_admin` on a bearer token that decodes to `p`:
returns the authenticated user together with the replacement token placed in
`request.state.new_token`, if any.  The sliding-expiration test
`remaining_minutes < JWT_REFRESH_THRESHOLD_MINUTES` is
`(exp - now)/60 < threshold` over the reals, i.e. `exp - now < threshold*60`.
-/
def require_admin (expirationMinutes thresholdMinutes : Int) (now : Int)
    (p : TokenPayload) : Except String (TokenPayload × Option TokenPayload) := do
  let user ← decode_token now p
  if user.exp - now < thresholdMinutes * 60 then
    .ok (user, some (create_token expirationMinutes now user.uid user.role))
  else
    .ok (user, none)

/-- The `add_new_token_header` middleware: append the `X-New-Token` response
header exactly when `require_admin` stored a replacement token. -/
def add_new_token_header (newToken : Option TokenPayload)
    (headers : List (String × TokenPayload)) : List (String × TokenPayload) :=
  match newToken with
  | some t => headers ++ [("X-New-Token", t)]
  | none => headers

/-- An authenticated request, end to end: `require_admin` then the response
middleware.  Yields the served identity and the response headers. -/
def handle_authed_request (expirationMinutes thresholdMinutes : Int) (now : Int)
    (p : TokenPayload) : Except String (TokenPayload × List (String × TokenPayload)) := do
  let (user, newToken) ← require_admin expirationMinutes thresholdMinutes now p
  .ok (user, add_new_token_header newToken [])

/-- A project record, restricted to the two image-bearing keys the cleanup
routines read (`index.py` reads `p["image"]`, the router reads
`p["imageUrl"]`); all other fields are frame. -/
structure Project where
  image : Option String
  imageUrl : Option String
deriving DecidableEq, Repr

/-- The image-filename set of `cleanup_unused_images`:
`{p.get("image", "").split("/")[-1] for p in projects if p.get("image")}`. -/
def referencedImages (projects : List Project) : Finset String :=
  (projects.filterMap fun p =>
    p.image.bind fun s => if s = "" then none else some (lastComp s)).toFinset

/-- `index.py`'s `cleanup_unused_images`, as its net effect on the image
store (set of filenames present in the images directory): each filename in
`old_images - new_images` is deleted if the directory listing contains it. -/
def cleanup_unused_images (new_projects old_projects : List Project)
    (store : Finset String) : Finset String :=
  store \ (referencedImages old_projects \ referencedImages new_projects)

/-- A communication (contact-form) record. -/
structure CommRecord where
  name : String
  email : String
  message : String
  status : String
  created_at : Int
  updated_at : Int
deriving DecidableEq, Repr

/-- `index.py`'s `submit_communication`: the document written for a public
submission. -/
def submit_communication (name email message : String) (now : Int) : CommRecord :=
  { name := name, email := email, message := message, status := "new",
    created_at := now, updated_at := now }

/-- The `StatusUpdate` pydantic pattern `^(new|done|dismissed)$`. -/
def validStatus (s : String) : Bool := s = "new" || s = "done" || s = "dismissed"

/-- Firestore `doc_ref.update({"status": ..., "updated_at": ...})`: merge
exactly those two fields into the record. -/
def apply_status_update (r : CommRecord) (status : String) (now : Int) : CommRecord :=
  { r with status := status, updated_at := now }

/-- `index.py`'s `update_communication_status` endpoint: pydantic validates
the body against `^(new|done|dismissed)$`, then the two-field merge runs. -/
def update_communication_status (r : CommRecord) (status : String) (now : Int) :
    Except String CommRecord :=
  if validStatus status then .ok (apply_status_update r status now)
  else .error "Validation error"

/-- A stored communication document: Firestore id plus the record itself. -/
structure CommDoc where
  id : String
  record : CommRecord
deriving DecidableEq, Repr

/-- Descending `created_at` order used by the communication listing. -/
def commOrder (a b : CommDoc) : Prop := b.record.created_at ≤ a.record.created_at

instance : DecidableRel commOrder := fun _ _ => Int.decLe _ _

instance : IsTotal CommDoc commOrder := ⟨fun a b => Int.le_total b.record.created_at a.record.created_at⟩

instance : IsTrans CommDoc commOrder := ⟨fun _ _ _ h1 h2 => le_trans h2 h1⟩

/-- `index.py`'s `get_communication`: filter only when the `status` query
parameter is truthy and one of `new`/`done`/`dismissed` (anything else is
silently ignored), then order by `created_at` descending and take at most
100 documents. -/
def get_communication (status : Option String) (coll : List CommDoc) : List CommDoc :=
  let q := match status with
    | some s => if s ≠ "" ∧ s ∈ (["new", "done", "dismissed"] : List String)
                then coll.filter (fun (d : CommDoc) => d.record.status = s) else coll
    | none => coll
  (q.insertionSort commOrder).take 100

end IndexApp

/-- A GitHub contents-API `PUT` as issued by the backend: the target path and
the optional `sha` field included in the request body (the optimistic
concurrency condition; a write carrying a stale `sha` is rejected upstream).
-/
structure PutRequest where
  path : String
  sha : Option String
deriving DecidableEq, Repr

namespace IndexApp

/-- `index.py` `save_projects`: `_, sha = await github_get_file(path)` then
`github_save_file(path, …, sha)` — the write carries the sha just read from
the store (`shaOf` is the store's current path-to-revision map). -/
def save_projects_put (projectsPath : String) (shaOf : String → Option String) : PutRequest :=
  { path := projectsPath, sha := shaOf projectsPath }

/-- `index.py` `save_contacts`: fetch current sha, then write with it. -/
def save_contacts_put (contactsPath : String) (shaOf : String → Option String) : PutRequest :=
  { path := contactsPath, sha := shaOf contactsPath }

/-- `index.py` `save_knowledge_category`: path is
`f"{GITHUB_KNOWLEDGE_PATH}/{category}.txt"`; fetch current sha, write with
it. -/
def save_knowledge_put (knowledgePath category : String)
    (shaOf : String → Option String) : PutRequest :=
  { path := knowledgePath ++ "/" ++ category ++ ".txt",
    sha := shaOf (knowledgePath ++ "/" ++ category ++ ".txt") }

/-- `index.py` `save_system_instructions`: fetch current sha, write with it.
-/
def save_system_instructions_put (sysInsPath : String)
    (shaOf : String → Option String) : PutRequest :=
  { path := sysInsPath, sha := shaOf sysInsPath }

/-- `index.py` `upload_project_image`: calls
`github_save_binary(path, webp_data, message)` with the `sha` parameter left
at its default `None` — no revision is fetched and none is sent. -/
def upload_project_image_put (imagesPath filename : String) : PutRequest :=
  { path := imagesPath ++ "/" ++ filename, sha := none }

end IndexApp

namespace GitHubProvider

/-- `GitHubProvider._get_sha`: the current revision of `path` per the store
(`none` both for an absent file and for a failed request). -/
def get_sha (shaOf : String → Option String) (path : String) : Option String :=
  shaOf path

/-- `GitHubProvider._save_file`: `sha = await self._get_sha(path)` then a
`PUT` whose body carries that sha when present. -/
def save_file_put (shaOf : String → Option String) (path : String) : PutRequest :=
  { path := path, sha := get_sha shaOf path }

/-- `GitHubProvider.upload_image`: path is
`f"{GITHUB_PROJECT_IMAGES_PATH}/{filename}"`; fetches the current sha and
sends it with the `PUT`. -/
def upload_image_put (imagesPath filename : String)
    (shaOf : String → Option String) : PutRequest :=
  { path := imagesPath ++ "/" ++ filename,
    sha := get_sha shaOf (imagesPath ++ "/" ++ filename) }

/-- Result dictionary of `GitHubProvider.delete_image`. -/
structure DeleteResult where
  sha : Option String
  success : Bool
deriving DecidableEq, Repr

/-- `GitHubProvider.delete_image`: fetch the current sha of the image path;
when it is absent the function logs and returns `{"sha": None, "success":
True}` without issuing a `DELETE`; otherwise the remote `DELETE` runs and its
outcome (`remote`: commit sha on 200, `none` on 204, or an error) is
returned. -/
def delete_image (shaOf : String → Option String)
    (remote : Except String (Option String)) (imagesPath filename : String) :
    Except String DeleteResult :=
  match shaOf (imagesPath ++ "/" ++ filename) with
  | none => .ok { sha := none, success := true }
  | some _ =>
    match remote with
    | .error e => .error e
    | .ok commitSha => .ok { sha := commitSha, success := true }

end GitHubProvider

namespace Routers

/-- The image-URL set of `_cleanup_deleted_images`:
`{p.get("imageUrl") for p in projects if p.get("imageUrl") and
p["imageUrl"].startswith("public/projects/")}`. -/
def ref_image_urls (projects : List IndexApp.Project) : Finset String :=
  (projects.filterMap fun p =>
    p.imageUrl.bind fun u =>
      if u ≠ "" ∧ leadsWith "public/projects/".data u.data then some u else none).toFinset

/-- The filenames `routers/projects.py` deletes: last path component of each
URL in `old_image_urls - new_image_urls` (the set-difference is taken on the
full URL strings, and only then are filenames extracted). -/
def deleted_filenames (new_projects old_projects : List IndexApp.Project) : Finset String :=
  (ref_image_urls old_projects \ ref_image_urls new_projects).image lastComp

/-- `routers/projects.py` `_cleanup_deleted_images`, as its net effect on the
image store (`delete_image` succeeds silently on absent filenames). -/
def cleanup_deleted_images (new_projects old_projects : List IndexApp.Project)
    (store : Finset String) : Finset String :=
  store \ deleted_filenames new_projects old_projects

/-- Modelled from the spec wording of C4: the set-difference of referenced
image *filenames* — filenames referenced by the old list minus filenames
referenced by the new list.  Stated only for comparison with the code's
`deleted_filenames`. -/
def claimedFilenameDiff (old_projects new_projects : List IndexApp.Project) : Finset String :=
  (ref_image_urls old_projects).image lastComp \ (ref_image_urls new_projects).image lastComp

/-- External (GitHub) calls made by the router's upload-image endpoint. -/
inductive ExtCall where
  | listImages
  | uploadImage (filename : String)
deriving DecidableEq, Repr

/-- `routers/projects.py` `upload_project_image`: validate the declared MIME
type, convert to WebP (size gate), list existing images, generate a unique
filename, upload, and answer with `public/projects/{filename}`.  The second
component records the GitHub calls actually issued, in order; `img` is the
decoded content of `file`. -/
def upload_project_image (projectName : String) (file : ImageService.UploadedFile)
    (img : ImageService.InputImage) (existing : List String) (uids : Nat → String)
    (fallbackUid : String) : Except String (String × String) × List ExtCall :=
  match ImageService.validate_image file with
  | (false, msg) => (.error msg, [])
  | (true, _) =>
    match ImageService.convert_to_webp img with
    | .error e => (.error e, [])
    | .ok _ =>
      let filename := ImageService.generate_unique_filename projectName existing uids fallbackUid
      (.ok ("public/projects/" ++ filename, filename),
       [.listImages, .uploadImage filename])

end Routers

namespace Js

/-!
Model of the fragment of Python's `json` module used by the backend
(`json.dumps(x, indent=n)` with `ensure_ascii=False` or pure-ASCII output,
and `json.loads`).  JSON numbers are restricted to integers: the project
payloads the backend round-trips are lists of objects with string/int/bool
leaves, and floating-point formatting is outside the embedding.
-/

mutual

/-- A JSON value with integer numbers.  Object fields keep Python's dict
insertion order. -/
inductive JValue where
  | null
  | bool (b : Bool)
  | num (n : Int)
  | str (s : List Char)
  | arr (items : JArray)
  | obj (fields : JObject)

/-- A JSON array. -/
inductive JArray where
  | nil
  | cons (hd : JValue) (tl : JArray)

/-- Ordered fields of a JSON object. -/
inductive JObject where
  | onil
  | ocons (key : List Char) (val : JValue) (tl : JObject)

end

/-- Decimal digit character for `m % 10`. -/
def digitChar : Nat → Char
  | 0 => '0' | 1 => '1' | 2 => '2' | 3 => '3' | 4 => '4'
  | 5 => '5' | 6 => '6' | 7 => '7' | 8 => '8' | _ => '9'

/-- Decimal digits of `n`, least significant first (`[]` for 0). -/
def natToRev : Nat → List Char
  | 0 => []
  | n + 1 => digitChar ((n + 1) % 10) :: natToRev ((n + 1) / 10)
decreasing_by exact Nat.div_lt_self (Nat.succ_pos n) (by omega)

/-- Decimal representation of a natural number. -/
def natToChars (n : Nat) : List Char := if n = 0 then ['0'] else (natToRev n).reverse

/-- Decimal representation of an integer, as Python prints `int`. -/
def intToChars (i : Int) : List Char :=
  if i < 0 then '-' :: natToChars i.natAbs else natToChars i.toNat

/-- Lowercase hex digit for `m < 16`, as in Python's `'\u%04x'` escapes. -/
def hexChar (m : Nat) : Char :=
  if m < 10 then digitChar m
  else if m = 10 then 'a' else if m = 11 then 'b' else if m = 12 then 'c'
  else if m = 13 then 'd' else if m = 14 then 'e' else 'f'

/-- How `json.dumps` writes one character inside a string literal: escape the
quote, the backslash and control characters (the named escapes for the usual
five, `\u00xx` for the rest), everything else verbatim. -/
def escChar (c : Char) : List Char :=
  if c = '"' then ['\\', '"']
  else if c = '\\' then ['\\', '\\']
  else if c = '\n' then ['\\', 'n']
  else if c = '\r' then ['\\', 'r']
  else if c = '\t' then ['\\', 't']
  else if c = Char.ofNat 8 then ['\\', 'b']
  else if c = Char.ofNat 12 then ['\\', 'f']
  else if c.toNat < 32 then ['\\', 'u', '0', '0', hexChar (c.toNat / 16), hexChar (c.toNat % 16)]
  else [c]

/-- Escaped body of a string literal, including the closing quote. -/
def escBody : List Char → List Char
  | [] => ['"']
  | c :: cs => escChar c ++ escBody cs

/-- A complete JSON string literal. -/
def escString (s : List Char) : List Char := '"' :: escBody s

/-- The newline-plus-indentation `json.dumps(…, indent=indent)` writes before
an element at nesting level `lvl`. -/
def pad (indent lvl : Nat) : List Char := '\n' :: List.replicate (indent * lvl) ' '

mutual

/-- `json.dumps(v, indent=indent)` at nesting level `lvl`: containers put
every element on its own indented line, with item separator `,` and key
separator `: `; empty containers print on one line. -/
def printValue (indent : Nat) : Nat → JValue → List Char
  | _, .null => ['n', 'u', 'l', 'l']
  | _, .bool true => ['t', 'r', 'u', 'e']
  | _, .bool false => ['f', 'a', 'l', 's', 'e']
  | _, .num i => intToChars i
  | _, .str s => escString s
  | _, .arr .nil => ['[', ']']
  | lvl, .arr (.cons v tl) =>
    '[' :: (pad indent (lvl + 1) ++ printValue indent (lvl + 1) v
      ++ printItems indent (lvl + 1) tl ++ pad indent lvl ++ [']'])
  | _, .obj .onil => [lbrace, rbrace]
  | lvl, .obj (.ocons k v tl) =>
    lbrace :: (pad indent (lvl + 1) ++ escString k ++ ':' :: ' ' ::
      printValue indent (lvl + 1) v ++ printFields indent (lvl + 1) tl
      ++ pad indent lvl ++ [rbrace])

/-- Second and later array items, each preceded by `,` and fresh-line
indentation. -/
def printItems (indent lvl : Nat) : JArray → List Char
  | .nil => []
  | .cons v tl =>
    ',' :: (pad indent lvl ++ printValue indent lvl v ++ printItems indent lvl tl)

/-- Second and later object fields. -/
def printFields (indent lvl : Nat) : JObject → List Char
  | .onil => []
  | .ocons k v tl =>
    ',' :: (pad indent lvl ++ escString k ++ ':' :: ' ' ::
      printValue indent lvl v ++ printFields indent lvl tl)

end

/-- `json.dumps(v, indent=indent)`. -/
def dumps (indent : Nat) (v : JValue) : List Char := printValue indent 0 v

/-- JSON whitespace accepted between tokens by `json.loads`. -/
def isWs (c : Char) : Bool := c = ' ' || c = '\t' || c = '\n' || c = '\r'

/-- Skip inter-token whitespace. -/
def skipWs (l : List Char) : List Char := l.dropWhile isWs

/-- Numeric value of a decimal digit character. -/
def digitVal (c : Char) : Nat := c.toNat - 48

/-- Value of a big-endian digit string. -/
def digitsToNat (ds : List Char) : Nat := ds.foldl (fun a c => a * 10 + digitVal c) 0

/-- Maximal-munch unsigned-integer parse. -/
def parseNat (input : List Char) : Option (Nat × List Char) :=
  let ds := input.takeWhile Char.isDigit
  if ds.isEmpty then none else some (digitsToNat ds, input.dropWhile Char.isDigit)

/-- Value of a hex digit character. -/
def hexVal (c : Char) : Option Nat :=
  if '0' ≤ c ∧ c ≤ '9' then some (c.toNat - 48)
  else if 'a' ≤ c ∧ c ≤ 'f' then some (c.toNat - 87)
  else if 'A' ≤ c ∧ c ≤ 'F' then some (c.toNat - 55)
  else none

/-- Decode a single-character string escape. -/
def unescChar (e : Char) : Option Char :=
  if e = '"' then some '"'
  else if e = '\\' then some '\\'
  else if e = '/' then some '/'
  else if e = 'b' then some (Char.ofNat 8)
  else if e = 'f' then some (Char.ofNat 12)
  else if e = 'n' then some '\n'
  else if e = 'r' then some '\r'
  else if e = 't' then some '\t'
  else none

/-- Parse the body of a string literal after its opening quote, undoing
`escChar`. -/
def parseStringBody : List Char → Option (List Char × List Char)
  | [] => none
  | c :: cs =>
    if c = '"' then some ([], cs)
    else if c = '\\' then
      match cs with
      | 'u' :: h1 :: h2 :: h3 :: h4 :: r => do
        let v1 ← hexVal h1
        let v2 ← hexVal h2
        let v3 ← hexVal h3
        let v4 ← hexVal h4
        let p ← parseStringBody r
        some (Char.ofNat (((v1 * 16 + v2) * 16 + v3) * 16 + v4) :: p.1, p.2)
      | e :: r => do
        let c2 ← unescChar e
        let p ← parseStringBody r
        some (c2 :: p.1, p.2)
      | [] => none
    else
      (parseStringBody cs).map fun p => (c :: p.1, p.2)

mutual

/-- Recursive-descent `json.loads` value parser.  `fuel` bounds the nesting
recursion; `loads` supplies more fuel than any input can consume. -/
def parseValue : Nat → List Char → Option (JValue × List Char)
  | 0, _ => none
  | fuel + 1, input =>
    match skipWs input with
    | [] => none
    | c :: rest =>
      if c = 'n' then
        if rest.take 3 = ['u', 'l', 'l'] then some (.null, rest.drop 3) else none
      else if c = 't' then
        if rest.take 3 = ['r', 'u', 'e'] then some (.bool true, rest.drop 3) else none
      else if c = 'f' then
        if rest.take 4 = ['a', 'l', 's', 'e'] then some (.bool false, rest.drop 4) else none
      else if c = '"' then
        (parseStringBody rest).map fun p => (.str p.1, p.2)
      else if c = '[' then
        let r2 := skipWs rest
        if r2.head? = some ']' then some (.arr .nil, r2.tail)
        else (parseItems fuel r2).map fun p => (.arr p.1, p.2)
      else if c = lbrace then
        let r2 := skipWs rest
        if r2.head? = some rbrace then some (.obj .onil, r2.tail)
        else (parseFields fuel r2).map fun p => (.obj p.1, p.2)
      else if c = '-' then
        (parseNat rest).map fun p => (.num (-(p.1 : Int)), p.2)
      else if c.isDigit then
        (parseNat (c :: rest)).map fun p => (.num (p.1 : Int), p.2)
      else none

/-- Comma-separated array items up to the closing bracket. -/
def parseItems : Nat → List Char → Option (JArray × List Char)
  | 0, _ => none
  | fuel + 1, input => do
    let p ← parseValue fuel input
    match skipWs p.2 with
    | ',' :: r2 => do
      let q ← parseItems fuel r2
      some (.cons p.1 q.1, q.2)
    | ']' :: r2 => some (.cons p.1 .nil, r2)
    | _ => none

/-- Comma-separated object fields up to the closing bracket-brace. -/
def parseFields : Nat → List Char → Option (JObject × List Char)
  | 0, _ => none
  | fuel + 1, input =>
    match skipWs input with
    | '"' :: r => do
      let kp ← parseStringBody r
      match skipWs kp.2 with
      | ':' :: r2 => do
        let vp ← parseValue fuel r2
        let r3 := skipWs vp.2
        if r3.head? = some ',' then do
          let q ← parseFields fuel r3.tail
          some (.ocons kp.1 vp.1 q.1, q.2)
        else if r3.head? = some rbrace then some (.ocons kp.1 vp.1 .onil, r3.tail)
        else none
      | _ => none
    | _ => none

end

/-- `json.loads`: parse one value and require only whitespace after it. -/
def loads (s : List Char) : Option JValue :=
  match parseValue (s.length + 1) s with
  | some p => if skipWs p.2 = [] then some p.1 else none
  | none => none

mutual

/-- Structural size driving the parser-fuel accounting. -/
def jsizeV : JValue → Nat
  | .null | .bool _ | .num _ | .str _ => 1
  | .arr l => 1 + jsizeA l
  | .obj o => 1 + jsizeO o

/-- Size of array elements. -/
def jsizeA : JArray → Nat
  | .nil => 0
  | .cons v tl => 1 + jsizeV v + jsizeA tl

/-- Size of object fields. -/
def jsizeO : JObject → Nat
  | .onil => 0
  | .ocons _ v tl => 1 + jsizeV v + jsizeO tl

end

/-- A list made of JSON whitespace only. -/
def WsList (w : List Char) : Prop := ∀ c ∈ w, isWs c = true

/-- A continuation whose first character (if any) is not a digit, so a
maximal-munch number parse cannot run into it. -/
def GoodRest (rest : List Char) : Prop := ∀ c, rest.head? = some c → c.isDigit = false

/-- The ten decimal digit characters. -/
def decDigits : List Char := ['0', '1', '2', '3', '4', '5', '6', '7', '8', '9']

end Js

namespace GitHubProvider

/-- The GitHub content store as seen through `_get_file`: path to stored text
(`none` for 404). -/
def ContentStore := String → Option (List Char)

/-- `GitHubProvider.get_projects`: a 404 yields `{"content": "", …}`, empty
content yields `{"projects": []}`, anything else is `json.loads`ed (`none`
models the raised `GitHubError` on invalid JSON). -/
def get_projects (projectsPath : String) (store : ContentStore) : Option Js.JValue :=
  match store projectsPath with
  | none => some (.arr .nil)
  | some content =>
    if content.isEmpty then some (.arr .nil) else Js.loads content

/-- `GitHubProvider.save_projects`: store
`json.dumps(projects, indent=4, ensure_ascii=False)` at the projects path
(the transport — base64 and the commit plumbing of `_save_file` — is modelled
as faithful storage). -/
def save_projects (projectsPath : String) (store : ContentStore)
    (projects : Js.JArray) : ContentStore :=
  fun p => if p = projectsPath then some (Js.dumps 4 (.arr projects)) else store p

end GitHubProvider

namespace IndexApp

/-- `index.py` `get_projects`: 404 or empty content yields `[]`, otherwise
`json.loads(content)`. -/
def get_projects (projectsPath : String) (store : GitHubProvider.ContentStore) :
    Option Js.JValue :=
  match store projectsPath with
  | none => some (.arr .nil)
  | some content =>
    if content.isEmpty then some (.arr .nil) else Js.loads content

/-- `index.py` `save_projects`' write: store
`json.dumps(data.projects, indent=2)`. -/
def save_projects_content (projectsPath : String) (store : GitHubProvider.ContentStore)
    (projects : Js.JArray) : GitHubProvider.ContentStore :=
  fun p => if p = projectsPath then some (Js.dumps 2 (.arr projects)) else store p

end IndexApp

/-!
## Theorems
-/

/-- C3: for every authenticated request carrying a valid token, if the
remaining validity is below the refresh threshold the response carries a
full-duration replacement token in the `X-New-Token` header and the request
is still served (the user is returned); at or above the threshold no
replacement token is returned. -/
theorem C3_sliding_refresh (expM thrM now : Int) (p : IndexApp.TokenPayload)
    (hvalid : now < p.exp) :
    (p.exp - now < thrM * 60 →
      IndexApp.handle_authed_request expM thrM now p =
        .ok (p, [("X-New-Token", IndexApp.create_token expM now p.uid p.role)]) ∧
      (IndexApp.create_token expM now p.uid p.role).exp - now = expM * 60) ∧
    (thrM * 60 ≤ p.exp - now →
      IndexApp.handle_authed_request expM thrM now p = .ok (p, [])) := by
  have hdec : IndexApp.decode_token now p = .ok p := by
    simp [IndexApp.decode_token, not_le.mpr hvalid]
  constructor
  · intro h
    refine ⟨?_, ?_⟩
    · simp [IndexApp.handle_authed_request, IndexApp.require_admin, hdec, h,
        IndexApp.add_new_token_header, Bind.bind, Except.bind]
    · simp [IndexApp.create_token]
  · intro h
    simp [IndexApp.handle_authed_request, IndexApp.require_admin, hdec, not_lt.mpr h,
      IndexApp.add_new_token_header, Bind.bind, Except.bind]

/-- Witness for `C3_sliding_refresh`: with a 60-minute expiry and 15-minute
threshold, a token 10 minutes from expiry is refreshed to a full-duration one
and a token 20 minutes from expiry is not. -/
theorem C3_sliding_refresh_witness :
    (IndexApp.handle_authed_request 60 15 0 ⟨"admin", "admin", "admin", -3000, 600⟩ =
      .ok (⟨"admin", "admin", "admin", -3000, 600⟩,
        [("X-New-Token", ⟨"admin", "admin", "admin", 0, 3600⟩)])) ∧
    (IndexApp.handle_authed_request 60 15 0 ⟨"admin", "admin", "admin", -2400, 1200⟩ =
      .ok (⟨"admin", "admin", "admin", -2400, 1200⟩, [])) := by
  constructor
  · have h := (C3_sliding_refresh 60 15 0 ⟨"admin", "admin", "admin", -3000, 600⟩
      (by decide)).1 (by decide)
    have hc : IndexApp.create_token 60 0 "admin" "admin" =
        ⟨"admin", "admin", "admin", 0, 3600⟩ := by decide
    rw [h.1, hc]
  · exact (C3_sliding_refresh 60 15 0 ⟨"admin", "admin", "admin", -2400, 1200⟩
      (by decide)).2 (by decide)

/-- C8: a public submission creates its communication record with status
`"new"`, and a subsequent (validated) status update changes only `status` and
`updated_at`, leaving name, email, message and `created_at` unchanged. -/
theorem C8_comm_record_frame (name email message : String) (now : Int)
    (r : IndexApp.CommRecord) (s : String) (t : Int)
    (hs : IndexApp.validStatus s = true) :
    (IndexApp.submit_communication name email message now).status = "new" ∧
    ∃ r', IndexApp.update_communication_status r s t = .ok r' ∧
      r'.status = s ∧ r'.updated_at = t ∧
      r'.name = r.name ∧ r'.email = r.email ∧ r'.message = r.message ∧
      r'.created_at = r.created_at := by
  refine ⟨rfl, IndexApp.apply_status_update r s t, ?_⟩
  simp [IndexApp.update_communication_status, hs, IndexApp.apply_status_update]

/-- Witness for `C8_comm_record_frame`: the Ana scenario, updated to
`"done"`. -/
theorem C8_comm_record_frame_witness :
    (IndexApp.submit_communication "Ana" "ana@x.com" "Hi" 5).status = "new" ∧
    ∃ r', IndexApp.update_communication_status
        (IndexApp.submit_communication "Ana" "ana@x.com" "Hi" 5) "done" 9 = .ok r' ∧
      r'.status = "done" ∧ r'.updated_at = 9 ∧
      r'.name = (IndexApp.submit_communication "Ana" "ana@x.com" "Hi" 5).name ∧
      r'.email = (IndexApp.submit_communication "Ana" "ana@x.com" "Hi" 5).email ∧
      r'.message = (IndexApp.submit_communication "Ana" "ana@x.com" "Hi" 5).message ∧
      r'.created_at = (IndexApp.submit_communication "Ana" "ana@x.com" "Hi" 5).created_at :=
  C8_comm_record_frame "Ana" "ana@x.com" "Hi" 5
    (IndexApp.submit_communication "Ana" "ana@x.com" "Hi" 5) "done" 9 (by decide)

/-- C9: deleting an image whose filename is absent from the image store
(`_get_sha` yields `none`) returns `{"sha": None, "success": True}` without
error, whatever the remote would have answered — deletion is idempotent. -/
theorem C9_delete_absent_succeeds (shaOf : String → Option String)
    (remote : Except String (Option String)) (imagesPath filename : String)
    (habs : shaOf (imagesPath ++ "/" ++ filename) = none) :
    GitHubProvider.delete_image shaOf remote imagesPath filename =
      .ok { sha := none, success := true } := by
  simp [GitHubProvider.delete_image, habs]

/-- Witness for `C9_delete_absent_succeeds`: an empty store. -/
theorem C9_delete_absent_succeeds_witness :
    GitHubProvider.delete_image (fun _ => none) (.error "boom") "images" "a.webp" =
      .ok { sha := none, success := true } :=
  C9_delete_absent_succeeds (fun _ => none) (.error "boom") "images" "a.webp" rfl

/-- C10: an absent or invalid `status` query parameter is silently ignored —
the unfiltered listing is returned — and every listing is capped at 100
records, sorted by `created_at` descending. -/
theorem C10_comm_listing (status : Option String) (coll : List IndexApp.CommDoc) :
    ((status = none ∨ ∀ s, status = some s →
        s ∉ (["new", "done", "dismissed"] : List String)) →
      IndexApp.get_communication status coll =
        (coll.insertionSort IndexApp.commOrder).take 100) ∧
    (IndexApp.get_communication status coll).length ≤ 100 ∧
    List.Sorted IndexApp.commOrder (IndexApp.get_communication status coll) := by
  refine ⟨?_, ?_, ?_⟩
  · rintro (rfl | hbad)
    · rfl
    · cases status with
      | none => rfl
      | some s =>
        have hnot : ¬(s = "new" ∨ s = "done" ∨ s = "dismissed") := by
          intro h
          exact hbad s rfl (by simpa using h)
        simp [IndexApp.get_communication, hnot]
  · cases status with
    | none =>
      simp [IndexApp.get_communication, List.length_take_le]
    | some s =>
      by_cases hc : s ≠ "" ∧ s ∈ (["new", "done", "dismissed"] : List String) <;>
        simp [IndexApp.get_communication, hc, List.length_take_le]
  · have hsorted : ∀ q : List IndexApp.CommDoc,
        List.Sorted IndexApp.commOrder ((q.insertionSort IndexApp.commOrder).take 100) :=
      fun q => List.Pairwise.sublist (List.take_sublist _ _)
        (List.sorted_insertionSort IndexApp.commOrder q)
    cases status with
    | none => exact hsorted coll
    | some s =>
      by_cases hc : s ≠ "" ∧ s ∈ (["new", "done", "dismissed"] : List String) <;>
        simp [IndexApp.get_communication, hc] <;> exact hsorted _

/-- Witness for `C10_comm_listing`: the made-up status `"bogus"` is ignored
and the two-record collection comes back whole, newest first. -/
theorem C10_comm_listing_witness :
    IndexApp.get_communication (some "bogus")
        [⟨"i1", "A", "a@x", "m", "new", 1, 1⟩, ⟨"i2", "B", "b@x", "m", "new", 7, 7⟩] =
      (([⟨"i1", "A", "a@x", "m", "new", 1, 1⟩,
         ⟨"i2", "B", "b@x", "m", "new", 7, 7⟩] :
          List IndexApp.CommDoc).insertionSort IndexApp.commOrder).take 100 :=
  (C10_comm_listing (some "bogus") _).1 (Or.inr (by decide))

/-- C5 (amended): the saves for projects, contacts, knowledge categories and
system instructions, and the provider's generic `_save_file` and
`upload_image`, all first re-fetch the target's revision and send exactly the
store's current sha for the written path; the exception (see
`C5_counterexample`) is `index.py`'s image upload. -/
theorem C5_writes_carry_current_sha (pp cp kp cat sp ip fn : String)
    (shaOf : String → Option String) :
    (IndexApp.save_projects_put pp shaOf).sha =
      GitHubProvider.get_sha shaOf (IndexApp.save_projects_put pp shaOf).path ∧
    (IndexApp.save_contacts_put cp shaOf).sha =
      GitHubProvider.get_sha shaOf (IndexApp.save_contacts_put cp shaOf).path ∧
    (IndexApp.save_knowledge_put kp cat shaOf).sha =
      GitHubProvider.get_sha shaOf (IndexApp.save_knowledge_put kp cat shaOf).path ∧
    (IndexApp.save_system_instructions_put sp shaOf).sha =
      GitHubProvider.get_sha shaOf (IndexApp.save_system_instructions_put sp shaOf).path ∧
    (GitHubProvider.save_file_put shaOf pp).sha =
      GitHubProvider.get_sha shaOf (GitHubProvider.save_file_put shaOf pp).path ∧
    (GitHubProvider.upload_image_put ip fn shaOf).sha =
      GitHubProvider.get_sha shaOf (GitHubProvider.upload_image_put ip fn shaOf).path :=
  ⟨rfl, rfl, rfl, rfl, rfl, rfl⟩

/-- Counterexample to C5 as stated: `index.py`'s `upload_project_image` write
carries no sha even when the store holds revision `"abc123"` for the very
path being written, so not every image save is conditioned on the last-read
revision. -/
theorem C5_counterexample :
    (IndexApp.upload_project_image_put "images" "a.webp").sha ≠
      GitHubProvider.get_sha (fun _ => some "abc123")
        (IndexApp.upload_project_image_put "images" "a.webp").path := by
  simp [IndexApp.upload_project_image_put, GitHubProvider.get_sha]

/-- If some draw among the next `r` avoids the existing set, the retry loop
returns the first avoiding candidate, which is outside the set. -/
theorem tryAttempts_avoids (san : String) (ex : List String) (uids : Nat → String) :
    ∀ (r i : Nat), (∃ k, k < r ∧ ImageService.candidate san (uids (i + k)) ∉ ex) →
    ∃ f, ImageService.tryAttempts san ex uids i r = some f ∧ f ∉ ex := by
  intro r
  induction r with
  | zero =>
    rintro i ⟨k, hk, -⟩
    omega
  | succ r ih =>
    rintro i ⟨k, hk, hnc⟩
    by_cases hf : ImageService.candidate san (uids i) ∈ ex
    · have hnext : ∃ k', k' < r ∧ ImageService.candidate san (uids (i + 1 + k')) ∉ ex := by
        cases k with
        | zero => exact absurd (by simpa using hf) (by simpa using hnc)
        | succ k' =>
          refine ⟨k', by omega, ?_⟩
          have harg : i + 1 + k' = i + (k' + 1) := by omega
          rw [harg]
          exact hnc
      obtain ⟨f, hsome, hout⟩ := ih (i + 1) hnext
      exact ⟨f, by simp [ImageService.tryAttempts, hf, hsome], hout⟩
    · exact ⟨_, by simp [ImageService.tryAttempts, hf], hf⟩

/-- C1 (amended): `generate_unique_filename` — the collision-checking
generator used by the router's upload path — terminates (it is a total
function) and returns a name outside the supplied existing set whenever at
least one of its ten bounded draws avoids that set.  The `index.py` upload
path's generator has no collision check at all; see `C1_counterexample`. -/
theorem C1_generate_unique_filename (project_name : String) (existing : List String)
    (uids : Nat → String) (fallbackUid : String)
    (h : ∃ k, k < 10 ∧ ImageService.candidate
      (ImageService.sanitize_filename project_name) (uids k) ∉ existing) :
    ImageService.generate_unique_filename project_name existing uids fallbackUid ∉
      existing := by
  obtain ⟨f, hsome, hout⟩ :=
    tryAttempts_avoids (ImageService.sanitize_filename project_name) existing uids 10 0
      (by simpa using h)
  simpa [ImageService.generate_unique_filename, hsome] using hout

/-- Witness for `C1_generate_unique_filename`: project `"My App"`, a stream
that always draws `"u0"`, one unrelated existing file. -/
theorem C1_generate_unique_filename_witness :
    (∃ k, k < 10 ∧ ImageService.candidate (ImageService.sanitize_filename "My App")
      ((fun _ => "u0") k) ∉ (["other.webp"] : List String)) ∧
    ImageService.generate_unique_filename "My App" ["other.webp"] (fun _ => "u0") "fb" ∉
      (["other.webp"] : List String) :=
  ⟨⟨0, by decide, by decide⟩,
    C1_generate_unique_filename "My App" ["other.webp"] (fun _ => "u0") "fb"
      ⟨0, by decide, by decide⟩⟩

/-- Counterexample to C1 as stated: the `index.py` upload path's filename
generator draws once and never consults the existing-name set, so with the
drawn token `"deadbeef"` it returns a filename already in the set, even
though a different draw (e.g. `"cafebabe"`) would not collide. -/
theorem C1_counterexample :
    IndexApp.generate_image_filename "a" "deadbeef" ∈
      (["a-deadbeef.webp"] : List String) ∧
    IndexApp.generate_image_filename "a" "cafebabe" ∉
      (["a-deadbeef.webp"] : List String) := by
  decide

/-- C2 (amended): for an input at or under the 10 MB ceiling, `index.py`'s
`convert_to_webp` succeeds with WebP output whose longer edge is at most the
1200 cap, both dimensions scaled by the common ratio `1200 / max(w, h)`
(truncated) when resizing occurs and untouched otherwise; the
`image_service.py` `convert_to_webp` (input at or under its 2 MB ceiling)
also produces WebP but never resizes — its output keeps the input
dimensions, so no cap applies on that path (see `C2_counterexample`). -/
theorem C2_transcode_bounded (img : ImageService.InputImage)
    (h : img.bytesLen ≤ IndexApp.MAX_IMAGE_SIZE) :
    (∃ out, IndexApp.convert_to_webp img 1200 = .ok out ∧ out.format = .WEBP ∧
      max out.width out.height ≤ 1200 ∧
      (1200 < max img.width img.height →
        out.width = img.width * 1200 / max img.width img.height ∧
        out.height = img.height * 1200 / max img.width img.height) ∧
      (max img.width img.height ≤ 1200 →
        out.width = img.width ∧ out.height = img.height)) ∧
    (img.bytesLen ≤ ImageService.MAX_IMAGE_SIZE →
      ∃ out, ImageService.convert_to_webp img = .ok out ∧ out.format = .WEBP ∧
        out.width = img.width ∧ out.height = img.height) := by
  have hn : ¬ img.bytesLen > IndexApp.MAX_IMAGE_SIZE := not_lt.mpr h
  constructor
  · by_cases hm : max img.width img.height > 1200
    · have hscaled : ∀ x, x ≤ max img.width img.height →
          x * 1200 / max img.width img.height ≤ 1200 := by
        intro x hx
        have hpos : 0 < max img.width img.height := by omega
        calc x * 1200 / max img.width img.height
            ≤ max img.width img.height * 1200 / max img.width img.height :=
              Nat.div_le_div_right (Nat.mul_le_mul_right _ hx)
          _ = 1200 := Nat.mul_div_cancel_left _ hpos
      have heq : IndexApp.convert_to_webp img 1200 = .ok
          { format := .WEBP,
            mode := if img.mode = .RGBA ∨ img.mode = .P then ImageService.ImgMode.RGB
              else img.mode,
            width := img.width * 1200 / max img.width img.height,
            height := img.height * 1200 / max img.width img.height } := by
        simp [IndexApp.convert_to_webp, hn, hm]
      refine ⟨_, heq, rfl, ?_, fun _ => ⟨rfl, rfl⟩,
        fun hle => absurd hm (not_lt.mpr hle)⟩
      simp only [max_le_iff]
      exact ⟨hscaled _ (le_max_left _ _), hscaled _ (le_max_right _ _)⟩
    · have heq : IndexApp.convert_to_webp img 1200 = .ok
          { format := .WEBP,
            mode := if img.mode = .RGBA ∨ img.mode = .P then ImageService.ImgMode.RGB
              else img.mode,
            width := img.width, height := img.height } := by
        simp [IndexApp.convert_to_webp, hn, hm]
      refine ⟨_, heq, rfl, ?_, fun hgt => absurd hgt hm, fun _ => ⟨rfl, rfl⟩⟩
      simpa using not_lt.mp hm
  · intro h2
    have heq : ImageService.convert_to_webp img = .ok
        { format := .WEBP,
          mode := if img.mode = .RGBA ∨ img.mode = .LA ∨ img.mode = .P
            then ImageService.ImgMode.RGB else img.mode,
          width := img.width, height := img.height } := by
      simp [ImageService.convert_to_webp, not_lt.mpr h2]
    exact ⟨_, heq, rfl, rfl, rfl⟩

/-- Witness for `C2_transcode_bounded`: a 2400×1200 RGB input of 1000 bytes
is transcoded by the `index.py` path to WebP within the 1200 cap. -/
theorem C2_transcode_bounded_witness :
    ∃ out, IndexApp.convert_to_webp ⟨2400, 1200, .RGB, 1000⟩ 1200 = .ok out ∧
      out.format = .WEBP ∧ max out.width out.height ≤ 1200 := by
  obtain ⟨⟨out, heq, hf, hb, -, -⟩, -⟩ :=
    C2_transcode_bounded ⟨2400, 1200, .RGB, 1000⟩ (by decide)
  exact ⟨out, heq, hf, hb⟩

/-- Counterexample to C2 as stated: the `image_service.py` transcoder, on a
valid 2400×1200 input well under its size ceiling, returns WebP output whose
longer edge is 2400 — above the 1200 cap the other code path enforces,
because this path performs no resizing at all. -/
theorem C2_counterexample :
    ImageService.convert_to_webp ⟨2400, 1200, .RGB, 1000⟩ =
      .ok ⟨.WEBP, .RGB, 2400, 1200⟩ ∧ 1200 < 2400 := by
  exact ⟨rfl, by decide⟩

/-- C4 (amended): the `index.py` cleanup removes from the image store exactly
the store's members in the set-difference of referenced image filenames; the
router cleanup removes exactly the store's members among the filenames
extracted from the set-difference of referenced image URLs (which can exceed
the filename set-difference — see `C4_counterexample`); and in the concrete
scenario, when the old projects reference `a.webp` and the new ones omit it,
both paths delete `a.webp`. -/
theorem C4_cleanup_deletes (new_projects old_projects : List IndexApp.Project)
    (store : Finset String) :
    store \ IndexApp.cleanup_unused_images new_projects old_projects store =
      store ∩ (IndexApp.referencedImages old_projects \
        IndexApp.referencedImages new_projects) ∧
    store \ Routers.cleanup_deleted_images new_projects old_projects store =
      store ∩ Routers.deleted_filenames new_projects old_projects ∧
    IndexApp.cleanup_unused_images [] [⟨some "a.webp", none⟩]
      ({"a.webp"} : Finset String) = ∅ ∧
    Routers.cleanup_deleted_images [] [⟨none, some "public/projects/a.webp"⟩]
      ({"a.webp"} : Finset String) = ∅ := by
  refine ⟨?_, ?_, by decide, by decide⟩
  · exact Finset.sdiff_sdiff_self_left store _
  · exact Finset.sdiff_sdiff_self_left store _

/-- Counterexample to C4 as stated: with the old list referencing
`public/projects/a.webp` and the new list referencing the same filename
through the distinct URL string `public/projects//a.webp`, the set-difference
of referenced *filenames* is empty — yet the router cleanup deletes `a.webp`
from the store, because it diffs full URL strings before extracting
filenames. -/
theorem C4_counterexample :
    Routers.cleanup_deleted_images [⟨none, some "public/projects//a.webp"⟩]
      [⟨none, some "public/projects/a.webp"⟩] ({"a.webp"} : Finset String) = ∅ ∧
    Routers.claimedFilenameDiff [⟨none, some "public/projects/a.webp"⟩]
      [⟨none, some "public/projects//a.webp"⟩] = ∅ := by
  decide

/-- C7 (amended): `index.py` validation accepts exactly the files with a
nonempty filename whose lowercased extension is allow-listed (MIME never
checked) and its transcoder rejects exactly the inputs above 10 MB — a
two-digit ceiling; `image_service.py` validation accepts exactly the files
with an allow-listed declared MIME type (extension never checked) and its
transcoder rejects exactly the inputs above 2 MB; and in the router's upload
path a validation failure is returned before any GitHub call is made. -/
theorem C7_validation_characterised (f : ImageService.UploadedFile)
    (img : ImageService.InputImage) :
    (IndexApp.validate_image f = .ok () ↔
      f.filename ≠ "" ∧
        IndexApp.splitextExt (lowerStr f.filename) ∈ IndexApp.ALLOWED_EXTENSIONS) ∧
    ((ImageService.validate_image f).1 = true ↔
      f.content_type ∈ ImageService.ALLOWED_MIME_TYPES) ∧
    ((∃ e, IndexApp.convert_to_webp img 1200 = .error e) ↔
      IndexApp.MAX_IMAGE_SIZE < img.bytesLen) ∧
    ((∃ e, ImageService.convert_to_webp img = .error e) ↔
      ImageService.MAX_IMAGE_SIZE < img.bytesLen) ∧
    (∀ (pn : String) (ex : List String) (uids : Nat → String) (fb : String),
      (ImageService.validate_image f).1 = false →
      Routers.upload_project_image pn f img ex uids fb =
        (.error (ImageService.validate_image f).2, [])) := by
  refine ⟨?_, ?_, ?_, ?_, ?_⟩
  · by_cases h1 : f.filename = "" <;>
      by_cases h2 : IndexApp.splitextExt (lowerStr f.filename) ∈ IndexApp.ALLOWED_EXTENSIONS <;>
      simp [IndexApp.validate_image, h1, h2]
  · by_cases hm : f.content_type ∈ ImageService.ALLOWED_MIME_TYPES <;>
      simp [ImageService.validate_image, hm]
  · by_cases hs : IndexApp.MAX_IMAGE_SIZE < img.bytesLen
    · simp [IndexApp.convert_to_webp, hs]
    · by_cases hm : max img.width img.height > 1200 <;>
        simp [IndexApp.convert_to_webp, hs, hm]
  · by_cases hs : ImageService.MAX_IMAGE_SIZE < img.bytesLen <;>
      simp [ImageService.convert_to_webp, hs]
  · intro pn ex uids fb hfalse
    have hm : f.content_type ∉ ImageService.ALLOWED_MIME_TYPES := by
      intro hmem
      simp [ImageService.validate_image, hmem] at hfalse
    have hval : ImageService.validate_image f = (false, "Invalid image type") := by
      simp [ImageService.validate_image, hm]
    rw [hval]
    simp [Routers.upload_project_image, hval]

/-- Witness for `C7_validation_characterised`: a `text/plain` upload is
rejected by the router path with no external call issued. -/
theorem C7_validation_characterised_witness :
    Routers.upload_project_image "p" ⟨"x.png", "text/plain", 100⟩ ⟨10, 10, .RGB, 100⟩
        [] (fun _ => "u") "fb" =
      (.error (ImageService.validate_image ⟨"x.png", "text/plain", 100⟩).2, []) :=
  (C7_validation_characterised ⟨"x.png", "text/plain", 100⟩ ⟨10, 10, .RGB, 100⟩).2.2.2.2
    "p" [] (fun _ => "u") "fb" (by decide)

/-- Counterexample to C7 as stated: the `image_service.py` validator accepts
a file whose extension `.exe` is outside every extension allow-list (it only
looks at MIME), the `index.py` validator accepts a file whose declared MIME
type `text/plain` is outside the MIME allow-list (it only looks at the
extension), and the `index.py` transcoder accepts a 10-megabyte input, so its
ceiling is not single-digit. -/
theorem C7_counterexample :
    ImageService.validate_image ⟨"x.exe", "image/png", 100⟩ = (true, "") ∧
    ".exe" ∉ ImageService.ALLOWED_EXTENSIONS ∧
    IndexApp.validate_image ⟨"x.png", "text/plain", 100⟩ = .ok () ∧
    "text/plain" ∉ ImageService.ALLOWED_MIME_TYPES ∧
    IndexApp.convert_to_webp ⟨100, 100, .RGB, 10 * 1024 * 1024⟩ 1200 =
      .ok ⟨.WEBP, .RGB, 100, 100⟩ := by
  refine ⟨rfl, by decide, rfl, by decide, rfl⟩

namespace Js

/-- `digitChar` inverts `digitVal` below ten. -/
theorem digitVal_digitChar : ∀ m, m < 10 → digitVal (digitChar m) = m := by decide

/-- `digitChar` lands in the digit list below ten. -/
theorem digitChar_mem_decDigits : ∀ m, m < 10 → digitChar m ∈ decDigits := by decide

/-- Each listed digit satisfies `Char.isDigit`. -/
theorem decDigits_isDigit : ∀ c ∈ decDigits, c.isDigit = true := by decide

/-- Appending one digit multiplies the accumulated value by ten. -/
theorem digitsToNat_append (ds : List Char) (c : Char) :
    digitsToNat (ds ++ [c]) = digitsToNat ds * 10 + digitVal c := by
  simp [digitsToNat, List.foldl_append]

/-- Reading the reversed digit expansion recovers the number. -/
theorem digitsToNat_natToRev : ∀ n, digitsToNat (natToRev n).reverse = n := by
  intro n
  induction n using Nat.strong_induction_on with
  | _ n ih =>
    match n with
    | 0 => simp [natToRev, digitsToNat]
    | m + 1 =>
      rw [natToRev, List.reverse_cons, digitsToNat_append,
        ih ((m + 1) / 10) (Nat.div_lt_self (by omega) (by omega)),
        digitVal_digitChar _ (Nat.mod_lt _ (by omega))]
      omega

/-- Every character of the digit expansion is a decimal digit. -/
theorem natToRev_mem_decDigits : ∀ n, ∀ c ∈ natToRev n, c ∈ decDigits := by
  intro n
  induction n using Nat.strong_induction_on with
  | _ n ih =>
    match n with
    | 0 => simp [natToRev]
    | m + 1 =>
      intro c hc
      rw [natToRev] at hc
      rcases List.mem_cons.mp hc with h | h
      · subst h
        exact digitChar_mem_decDigits _ (Nat.mod_lt _ (by omega))
      · exact ih ((m + 1) / 10) (Nat.div_lt_self (by omega) (by omega)) c h

/-- Characters of `natToChars` are decimal digits. -/
theorem natToChars_mem_decDigits (n : Nat) : ∀ c ∈ natToChars n, c ∈ decDigits := by
  intro c hc
  unfold natToChars at hc
  split at hc
  · simp at hc
    subst hc
    decide
  · exact natToRev_mem_decDigits n c (List.mem_reverse.mp hc)

/-- Characters of `natToChars` satisfy `Char.isDigit`. -/
theorem natToChars_isDigit (n : Nat) : ∀ c ∈ natToChars n, c.isDigit = true :=
  fun c hc => decDigits_isDigit c (natToChars_mem_decDigits n c hc)

/-- The printed number is never empty. -/
theorem natToChars_ne_nil (n : Nat) : natToChars n ≠ [] := by
  unfold natToChars
  split
  · simp
  · next h =>
    match hm : n with
    | 0 => exact absurd rfl h
    | m + 1 =>
      rw [natToRev]
      simp

/-- Reading the decimal expansion recovers the number. -/
theorem digitsToNat_natToChars (n : Nat) : digitsToNat (natToChars n) = n := by
  unfold natToChars
  split
  · next h => subst h; decide
  · exact digitsToNat_natToRev n

/-- `takeWhile` passes through a satisfying block. -/
theorem takeWhile_append_all {p : Char → Bool} {ds : List Char} (rest : List Char)
    (h : ∀ c ∈ ds, p c = true) :
    (ds ++ rest).takeWhile p = ds ++ rest.takeWhile p := by
  induction ds with
  | nil => simp
  | cons c cs ih =>
    have hc := h c (List.mem_cons_self c cs)
    simp only [List.cons_append, List.takeWhile_cons, hc, if_true]
    rw [ih fun d hd => h d (List.mem_cons_of_mem c hd)]

/-- `dropWhile` consumes a satisfying block. -/
theorem dropWhile_append_all {p : Char → Bool} {ds : List Char} (rest : List Char)
    (h : ∀ c ∈ ds, p c = true) :
    (ds ++ rest).dropWhile p = rest.dropWhile p := by
  induction ds with
  | nil => simp
  | cons c cs ih =>
    have hc := h c (List.mem_cons_self c cs)
    simp only [List.cons_append, List.dropWhile_cons, hc, if_true]
    exact ih fun d hd => h d (List.mem_cons_of_mem c hd)

/-- A good continuation yields no digits to `takeWhile`. -/
theorem takeWhile_isDigit_eq_nil {rest : List Char} (h : GoodRest rest) :
    rest.takeWhile Char.isDigit = [] := by
  cases rest with
  | nil => rfl
  | cons c cs => simp [List.takeWhile_cons, h c rfl]

/-- A good continuation is untouched by `dropWhile`. -/
theorem dropWhile_isDigit_eq_self {rest : List Char} (h : GoodRest rest) :
    rest.dropWhile Char.isDigit = rest := by
  cases rest with
  | nil => rfl
  | cons c cs => simp [List.dropWhile_cons, h c rfl]

/-- A printed natural number parses back, leaving a good continuation. -/
theorem parseNat_natToChars (n : Nat) {rest : List Char} (h : GoodRest rest) :
    parseNat (natToChars n ++ rest) = some (n, rest) := by
  unfold parseNat
  rw [takeWhile_append_all rest (natToChars_isDigit n), takeWhile_isDigit_eq_nil h,
    dropWhile_append_all rest (natToChars_isDigit n), dropWhile_isDigit_eq_self h,
    List.append_nil]
  simp [natToChars_ne_nil n, List.isEmpty_iff, digitsToNat_natToChars]

/-- Whitespace prefixes are skipped. -/
theorem skipWs_append_ws {w : List Char} (x : List Char) (h : WsList w) :
    skipWs (w ++ x) = skipWs x :=
  dropWhile_append_all x h

/-- A non-whitespace head stops the skip. -/
theorem skipWs_cons_not {c : Char} (x : List Char) (h : isWs c = false) :
    skipWs (c :: x) = c :: x := by
  simp [skipWs, List.dropWhile_cons, h]

/-- Indentation text is whitespace. -/
theorem wsList_pad (indent lvl : Nat) : WsList (pad indent lvl) := by
  intro c hc
  rcases List.mem_cons.mp hc with h | h
  · subst h; decide
  · rw [List.eq_of_mem_replicate h]; decide

/-- The empty prefix is whitespace. -/
theorem wsList_nil : WsList ([] : List Char) := fun c hc => absurd hc (List.not_mem_nil c)

/-- A single blank is whitespace. -/
theorem wsList_space : WsList [' '] := by
  intro c hc
  rcases List.mem_cons.mp hc with h | h
  · subst h; decide
  · exact absurd h (List.not_mem_nil c)

/-- The empty continuation is good. -/
theorem goodRest_nil : GoodRest ([] : List Char) := fun c hc => by cases hc

/-- A continuation headed by a non-digit is good. -/
theorem goodRest_cons {c : Char} (rest : List Char) (h : c.isDigit = false) :
    GoodRest (c :: rest) := by
  intro d hd
  cases hd
  exact h

/-- `hexChar` inverts `hexVal` below sixteen. -/
theorem hexVal_hexChar : ∀ m, m < 16 → hexVal (hexChar m) = some m := by decide

/-- Dispatch facts for digit characters: none of the other leading tokens,
and `Char.isDigit` holds. -/
theorem decDigits_dispatch : ∀ c ∈ decDigits, isWs c = false ∧ c ≠ 'n' ∧ c ≠ 't' ∧
    c ≠ 'f' ∧ c ≠ '"' ∧ c ≠ '[' ∧ c ≠ lbrace ∧ c ≠ '-' ∧ c ≠ ']' ∧
    c.isDigit = true := by decide

/-- Parsing undoes the one-character escape. -/
theorem parseStringBody_escChar (c : Char) {k : List Char} {res : List Char × List Char}
    (h : parseStringBody k = some res) :
    parseStringBody (escChar c ++ k) = some (c :: res.1, res.2) := by
  by_cases h1 : c = '"'
  · subst h1
    rw [show escChar '"' ++ k = '\\' :: '"' :: k from rfl, parseStringBody.eq_def]
    simp [unescChar, h]
  by_cases h2 : c = '\\'
  · subst h2
    rw [show escChar '\\' ++ k = '\\' :: '\\' :: k from rfl, parseStringBody.eq_def]
    simp [unescChar, h]
  by_cases h3 : c = '\n'
  · subst h3
    rw [show escChar '\n' ++ k = '\\' :: 'n' :: k from rfl, parseStringBody.eq_def]
    simp [unescChar, h]
  by_cases h4 : c = '\r'
  · subst h4
    rw [show escChar '\r' ++ k = '\\' :: 'r' :: k from rfl, parseStringBody.eq_def]
    simp [unescChar, h]
  by_cases h5 : c = '\t'
  · subst h5
    rw [show escChar '\t' ++ k = '\\' :: 't' :: k from rfl, parseStringBody.eq_def]
    simp [unescChar, h]
  by_cases h6 : c = Char.ofNat 8
  · subst h6
    rw [show escChar (Char.ofNat 8) ++ k = '\\' :: 'b' :: k from rfl, parseStringBody.eq_def]
    simp [unescChar, h]
  by_cases h7 : c = Char.ofNat 12
  · subst h7
    rw [show escChar (Char.ofNat 12) ++ k = '\\' :: 'f' :: k from rfl, parseStringBody.eq_def]
    simp [unescChar, h]
  by_cases h8 : c.toNat < 32
  · have hhi : c.toNat / 16 < 16 := by omega
    have hlo : c.toNat % 16 < 16 := by omega
    have hz : hexVal '0' = some 0 := by decide
    have hesc : escChar c ++ k =
        '\\' :: 'u' :: '0' :: '0' :: hexChar (c.toNat / 16) :: hexChar (c.toNat % 16) :: k := by
      simp [escChar, h1, h2, h3, h4, h5, h6, h7, h8]
    rw [hesc, parseStringBody.eq_def]
    simp [hz, hexVal_hexChar _ hhi, hexVal_hexChar _ hlo, h]
    rw [show c.toNat / 16 * 16 + c.toNat % 16 = c.toNat from by omega, Char.ofNat_toNat]
  · have hesc : escChar c ++ k = c :: k := by
      simp [escChar, h1, h2, h3, h4, h5, h6, h7, h8]
    rw [hesc, parseStringBody.eq_def]
    simp [h1, h2, h]

/-- Parsing undoes the whole escaped body, closing quote included. -/
theorem parseStringBody_escBody (s : List Char) : ∀ rest : List Char,
    parseStringBody (escBody s ++ rest) = some (s, rest) := by
  induction s with
  | nil =>
    intro rest
    rw [show escBody [] ++ rest = '"' :: rest from rfl, parseStringBody.eq_def]
    simp
  | cons c cs ih =>
    intro rest
    have h := parseStringBody_escChar c (ih rest)
    rw [escBody, List.append_assoc]
    exact h

/-- The printed number is never empty. -/
theorem intToChars_ne_nil (i : Int) : intToChars i ≠ [] := by
  unfold intToChars
  split
  · simp
  · exact natToChars_ne_nil _

/-- Every printed value starts with a visible character other than `]`. -/
theorem printValue_head (I lvl : Nat) (v : JValue) :
    ∃ c cs, printValue I lvl v = c :: cs ∧ isWs c = false ∧ c ≠ ']' := by
  cases v with
  | null => exact ⟨'n', _, rfl, by decide, by decide⟩
  | bool b =>
    cases b with
    | false => exact ⟨'f', _, rfl, by decide, by decide⟩
    | true => exact ⟨'t', _, rfl, by decide, by decide⟩
  | num i =>
    by_cases hi : i < 0
    · refine ⟨'-', natToChars i.natAbs, ?_, by decide, by decide⟩
      simp [printValue, intToChars, hi]
    · obtain ⟨c, cs, heq⟩ : ∃ c cs, natToChars i.toNat = c :: cs := by
        match hnc : natToChars i.toNat with
        | [] => exact absurd hnc (natToChars_ne_nil _)
        | c :: cs => exact ⟨c, cs, rfl⟩
      have hmem : c ∈ decDigits :=
        natToChars_mem_decDigits _ c (by rw [heq]; exact List.mem_cons_self _ _)
      obtain ⟨hws, -, -, -, -, -, -, -, hne, -⟩ := decDigits_dispatch c hmem
      exact ⟨c, cs, by simp [printValue, intToChars, hi, heq], hws, hne⟩
  | str s => exact ⟨'"', escBody s, by simp [printValue, escString], by decide, by decide⟩
  | arr l =>
    cases l with
    | nil => exact ⟨'[', _, rfl, by decide, by decide⟩
    | cons v tl => exact ⟨'[', _, rfl, by decide, by decide⟩
  | obj o =>
    cases o with
    | onil => exact ⟨lbrace, _, rfl, by decide, by decide⟩
    | ocons k v tl => exact ⟨lbrace, _, rfl, by decide, by decide⟩

/-- A printed-items block followed by indentation cannot begin with a digit.
-/
theorem goodRest_items (I la lb : Nat) (tl : JArray) (x : List Char) :
    GoodRest (printItems I la tl ++ (pad I lb ++ x)) := by
  cases tl <;>
    simp only [printItems, List.nil_append, List.cons_append, pad] <;>
    exact goodRest_cons _ (by decide)

/-- A printed-fields block followed by indentation cannot begin with a digit.
-/
theorem goodRest_fields (I la lb : Nat) (tl : JObject) (x : List Char) :
    GoodRest (printFields I la tl ++ (pad I lb ++ x)) := by
  cases tl <;>
    simp only [printFields, List.nil_append, List.cons_append, pad] <;>
    exact goodRest_cons _ (by decide)

/-- The opening bracket-brace is none of the other leading tokens. -/
theorem lbrace_dispatch : lbrace ≠ 'n' ∧ lbrace ≠ 't' ∧ lbrace ≠ 'f' ∧ lbrace ≠ '"' ∧
    lbrace ≠ '[' ∧ ('-' : Char) ≠ lbrace := by decide

/-- The parser accepts a printed `null` after any whitespace. -/
theorem parseValue_lit_null (fuel : Nat) {w : List Char} (rest : List Char)
    (hw : WsList w) :
    parseValue (fuel + 1) (w ++ 'n' :: 'u' :: 'l' :: 'l' :: rest) = some (.null, rest) := by
  have hs : skipWs (w ++ 'n' :: 'u' :: 'l' :: 'l' :: rest) =
      'n' :: 'u' :: 'l' :: 'l' :: rest := by
    rw [skipWs_append_ws _ hw]
    exact skipWs_cons_not _ (by decide)
  rw [parseValue.eq_def]
  simp [hs]

/-- The parser accepts a printed `true` after any whitespace. -/
theorem parseValue_lit_true (fuel : Nat) {w : List Char} (rest : List Char)
    (hw : WsList w) :
    parseValue (fuel + 1) (w ++ 't' :: 'r' :: 'u' :: 'e' :: rest) =
      some (.bool true, rest) := by
  have hs : skipWs (w ++ 't' :: 'r' :: 'u' :: 'e' :: rest) =
      't' :: 'r' :: 'u' :: 'e' :: rest := by
    rw [skipWs_append_ws _ hw]
    exact skipWs_cons_not _ (by decide)
  rw [parseValue.eq_def]
  simp [hs]

/-- The parser accepts a printed `false` after any whitespace. -/
theorem parseValue_lit_false (fuel : Nat) {w : List Char} (rest : List Char)
    (hw : WsList w) :
    parseValue (fuel + 1) (w ++ 'f' :: 'a' :: 'l' :: 's' :: 'e' :: rest) =
      some (.bool false, rest) := by
  have hs : skipWs (w ++ 'f' :: 'a' :: 'l' :: 's' :: 'e' :: rest) =
      'f' :: 'a' :: 'l' :: 's' :: 'e' :: rest := by
    rw [skipWs_append_ws _ hw]
    exact skipWs_cons_not _ (by decide)
  rw [parseValue.eq_def]
  simp [hs]

/-- The parser reads a printed integer back, up to a non-digit continuation.
-/
theorem parseValue_num (fuel : Nat) (i : Int) {w rest : List Char} (hw : WsList w)
    (hr : GoodRest rest) :
    parseValue (fuel + 1) (w ++ (intToChars i ++ rest)) = some (.num i, rest) := by
  by_cases hi : i < 0
  · have hs : skipWs (w ++ (intToChars i ++ rest)) =
        '-' :: (natToChars i.natAbs ++ rest) := by
      rw [skipWs_append_ws _ hw]
      simp only [intToChars, if_pos hi, List.cons_append]
      exact skipWs_cons_not _ (by decide)
    have hneg : -(i.natAbs : Int) = i := by omega
    rw [parseValue.eq_def]
    simp [hs, parseNat_natToChars i.natAbs hr, hneg, lbrace_dispatch.2.2.2.2.2]
    rw [abs_of_nonpos (by omega : i ≤ 0), neg_neg]
  · obtain ⟨c, cs, heq⟩ : ∃ c cs, natToChars i.toNat = c :: cs := by
      match hnc : natToChars i.toNat with
      | [] => exact absurd hnc (natToChars_ne_nil _)
      | c :: cs => exact ⟨c, cs, rfl⟩
    have hmem : c ∈ decDigits :=
      natToChars_mem_decDigits _ c (by rw [heq]; exact List.mem_cons_self _ _)
    obtain ⟨hws, hn', ht', hf', hq', hb', hl', hm', -, hd'⟩ := decDigits_dispatch c hmem
    have hs : skipWs (w ++ (intToChars i ++ rest)) = c :: (cs ++ rest) := by
      rw [skipWs_append_ws _ hw]
      simp only [intToChars, if_neg hi, heq, List.cons_append]
      exact skipWs_cons_not _ hws
    have hpn : parseNat (c :: (cs ++ rest)) = some (i.toNat, rest) := by
      have h := parseNat_natToChars i.toNat hr
      rw [heq] at h
      simpa using h
    have hcast : (i.toNat : Int) = i := Int.toNat_of_nonneg (not_lt.mp hi)
    rw [parseValue.eq_def]
    simp [hs, hn', ht', hf', hq', hb', hl', hm', hd', hpn, hcast]

/-- The parser reads a printed string literal back. -/
theorem parseValue_str (fuel : Nat) (s : List Char) {w rest : List Char}
    (hw : WsList w) :
    parseValue (fuel + 1) (w ++ ('"' :: (escBody s ++ rest))) = some (.str s, rest) := by
  have hs : skipWs (w ++ ('"' :: (escBody s ++ rest))) = '"' :: (escBody s ++ rest) := by
    rw [skipWs_append_ws _ hw]
    exact skipWs_cons_not _ (by decide)
  rw [parseValue.eq_def]
  simp [hs, parseStringBody_escBody s rest]

/-- The parser reads a printed empty array back. -/
theorem parseValue_arr_nil (fuel : Nat) {w : List Char} (rest : List Char)
    (hw : WsList w) :
    parseValue (fuel + 1) (w ++ '[' :: ']' :: rest) = some (.arr .nil, rest) := by
  have hs : skipWs (w ++ '[' :: ']' :: rest) = '[' :: ']' :: rest := by
    rw [skipWs_append_ws _ hw]
    exact skipWs_cons_not _ (by decide)
  have hs2 : skipWs (']' :: rest) = ']' :: rest := skipWs_cons_not _ (by decide)
  rw [parseValue.eq_def]
  simp [hs, hs2]

/-- The parser reads a printed empty object back. -/
theorem parseValue_obj_nil (fuel : Nat) {w : List Char} (rest : List Char)
    (hw : WsList w) :
    parseValue (fuel + 1) (w ++ lbrace :: rbrace :: rest) = some (.obj .onil, rest) := by
  have hs : skipWs (w ++ lbrace :: rbrace :: rest) = lbrace :: rbrace :: rest := by
    rw [skipWs_append_ws _ hw]
    exact skipWs_cons_not _ (by decide)
  have hs2 : skipWs (rbrace :: rest) = rbrace :: rest := skipWs_cons_not _ (by decide)
  obtain ⟨hb1, hb2, hb3, hb4, hb5, -⟩ := lbrace_dispatch
  rw [parseValue.eq_def]
  simp [hs, hs2, hb1, hb2, hb3, hb4, hb5]

/-- Glue: a successful items parse after the opening bracket gives the
nonempty-array case of the value parser. -/
theorem parseValue_arr_glue (fuel I lvl : Nat) {w rest : List Char} (hw : WsList w)
    (v : JValue) (tl : JArray)
    (hitems : parseItems fuel
      (printValue I (lvl + 1) v ++ (printItems I (lvl + 1) tl ++
        (pad I lvl ++ ']' :: rest))) = some (.cons v tl, rest)) :
    parseValue (fuel + 1)
      (w ++ '[' :: (pad I (lvl + 1) ++ (printValue I (lvl + 1) v ++
        (printItems I (lvl + 1) tl ++ (pad I lvl ++ ']' :: rest))))) =
      some (.arr (.cons v tl), rest) := by
  obtain ⟨c, cs, hpv, hcws, hcne⟩ := printValue_head I (lvl + 1) v
  have hs : skipWs (w ++ '[' :: (pad I (lvl + 1) ++ (printValue I (lvl + 1) v ++
      (printItems I (lvl + 1) tl ++ (pad I lvl ++ ']' :: rest))))) =
      '[' :: (pad I (lvl + 1) ++ (printValue I (lvl + 1) v ++
        (printItems I (lvl + 1) tl ++ (pad I lvl ++ ']' :: rest)))) := by
    rw [skipWs_append_ws _ hw]
    exact skipWs_cons_not _ (by decide)
  have hr2 : skipWs (pad I (lvl + 1) ++ (printValue I (lvl + 1) v ++
      (printItems I (lvl + 1) tl ++ (pad I lvl ++ ']' :: rest)))) =
      c :: (cs ++ (printItems I (lvl + 1) tl ++ (pad I lvl ++ ']' :: rest))) := by
    rw [skipWs_append_ws _ (wsList_pad I (lvl + 1)), hpv, List.cons_append]
    exact skipWs_cons_not _ hcws
  have hitems' : parseItems fuel
      (c :: (cs ++ (printItems I (lvl + 1) tl ++ (pad I lvl ++ ']' :: rest)))) =
      some (.cons v tl, rest) := by
    rw [hpv] at hitems
    simpa using hitems
  rw [parseValue.eq_def]
  simp [hs, hr2, hcne, hitems']

/-- Glue: a successful fields parse after the opening bracket-brace gives the
nonempty-object case of the value parser. -/
theorem parseValue_obj_glue (fuel I lvl : Nat) {w rest : List Char} (hw : WsList w)
    (k : List Char) (v : JValue) (tl : JObject)
    (hfields : parseFields fuel
      ('"' :: (escBody k ++ (':' :: ' ' :: (printValue I (lvl + 1) v ++
        (printFields I (lvl + 1) tl ++ (pad I lvl ++ rbrace :: rest)))))) =
      some (.ocons k v tl, rest)) :
    parseValue (fuel + 1)
      (w ++ lbrace :: (pad I (lvl + 1) ++ ('"' :: (escBody k ++ (':' :: ' ' ::
        (printValue I (lvl + 1) v ++ (printFields I (lvl + 1) tl ++
          (pad I lvl ++ rbrace :: rest)))))))) =
      some (.obj (.ocons k v tl), rest) := by
  have hs : skipWs (w ++ lbrace :: (pad I (lvl + 1) ++ ('"' :: (escBody k ++ (':' :: ' ' ::
      (printValue I (lvl + 1) v ++ (printFields I (lvl + 1) tl ++
        (pad I lvl ++ rbrace :: rest)))))))) =
      lbrace :: (pad I (lvl + 1) ++ ('"' :: (escBody k ++ (':' :: ' ' ::
        (printValue I (lvl + 1) v ++ (printFields I (lvl + 1) tl ++
          (pad I lvl ++ rbrace :: rest))))))) := by
    rw [skipWs_append_ws _ hw]
    exact skipWs_cons_not _ (by decide)
  have hr2 : skipWs (pad I (lvl + 1) ++ ('"' :: (escBody k ++ (':' :: ' ' ::
      (printValue I (lvl + 1) v ++ (printFields I (lvl + 1) tl ++
        (pad I lvl ++ rbrace :: rest))))))) =
      '"' :: (escBody k ++ (':' :: ' ' :: (printValue I (lvl + 1) v ++
        (printFields I (lvl + 1) tl ++ (pad I lvl ++ rbrace :: rest))))) := by
    rw [skipWs_append_ws _ (wsList_pad I (lvl + 1))]
    exact skipWs_cons_not _ (by decide)
  obtain ⟨hb1, hb2, hb3, hb4, hb5, -⟩ := lbrace_dispatch
  rw [parseValue.eq_def]
  simp [hs, hr2, hfields, hb1, hb2, hb3, hb4, hb5,
    show ('"' : Char) ≠ rbrace from by decide]

/-- Glue: the last array item, followed by the closing-line indentation and
bracket. -/
theorem parseItems_last (fuel I lvl : Nat) {input rest : List Char} {v : JValue}
    (hv : parseValue fuel input = some (v, pad I lvl ++ ']' :: rest)) :
    parseItems (fuel + 1) input = some (.cons v .nil, rest) := by
  have hs : skipWs (pad I lvl ++ ']' :: rest) = ']' :: rest := by
    rw [skipWs_append_ws _ (wsList_pad I lvl)]
    exact skipWs_cons_not _ (by decide)
  rw [parseItems.eq_def]
  simp [hv, hs]

/-- Glue: an array item followed by a comma and further items. -/
theorem parseItems_more (fuel : Nat) {input Y rest : List Char} {v : JValue}
    {tl : JArray}
    (hv : parseValue fuel input = some (v, ',' :: Y))
    (htl : parseItems fuel Y = some (tl, rest)) :
    parseItems (fuel + 1) input = some (.cons v tl, rest) := by
  have hs : skipWs (',' :: Y) = ',' :: Y := skipWs_cons_not _ (by decide)
  rw [parseItems.eq_def]
  simp [hv, hs, htl]

/-- Glue: the last object field, followed by the closing-line indentation and
bracket-brace. -/
theorem parseFields_last (fuel I lvl : Nat) {w Z rest : List Char} (hw : WsList w)
    (k : List Char) {v : JValue}
    (hv : parseValue fuel (' ' :: Z) = some (v, pad I lvl ++ rbrace :: rest)) :
    parseFields (fuel + 1) (w ++ ('"' :: (escBody k ++ (':' :: ' ' :: Z)))) =
      some (.ocons k v .onil, rest) := by
  have hs : skipWs (w ++ ('"' :: (escBody k ++ (':' :: ' ' :: Z)))) =
      '"' :: (escBody k ++ (':' :: ' ' :: Z)) := by
    rw [skipWs_append_ws _ hw]
    exact skipWs_cons_not _ (by decide)
  have hcol : skipWs (':' :: ' ' :: Z) = ':' :: ' ' :: Z := skipWs_cons_not _ (by decide)
  have hcl : skipWs (pad I lvl ++ rbrace :: rest) = rbrace :: rest := by
    rw [skipWs_append_ws _ (wsList_pad I lvl)]
    exact skipWs_cons_not _ (by decide)
  rw [parseFields.eq_def]
  simp [hs, parseStringBody_escBody k, hcol, hv, hcl,
    show rbrace ≠ ',' from by decide]

/-- Glue: an object field followed by a comma and further fields. -/
theorem parseFields_more (fuel : Nat) {w Z Y rest : List Char} (hw : WsList w)
    (k : List Char) {v : JValue} {tl : JObject}
    (hv : parseValue fuel (' ' :: Z) = some (v, ',' :: Y))
    (htl : parseFields fuel Y = some (tl, rest)) :
    parseFields (fuel + 1) (w ++ ('"' :: (escBody k ++ (':' :: ' ' :: Z)))) =
      some (.ocons k v tl, rest) := by
  have hs : skipWs (w ++ ('"' :: (escBody k ++ (':' :: ' ' :: Z)))) =
      '"' :: (escBody k ++ (':' :: ' ' :: Z)) := by
    rw [skipWs_append_ws _ hw]
    exact skipWs_cons_not _ (by decide)
  have hcol : skipWs (':' :: ' ' :: Z) = ':' :: ' ' :: Z := skipWs_cons_not _ (by decide)
  have hcm : skipWs (',' :: Y) = ',' :: Y := skipWs_cons_not _ (by decide)
  rw [parseFields.eq_def]
  simp [hs, parseStringBody_escBody k, hcol, hv, hcm, htl]

/-- Values have positive size. -/
theorem jsizeV_pos (v : JValue) : 1 ≤ jsizeV v := by
  cases v <;> simp [jsizeV]

/-- Completeness of the parser against the printer, by induction on fuel:
with enough fuel, a printed value (or item block, or field block) parses back
to itself, leaving exactly the trailing continuation. -/
theorem parse_print (I : Nat) : ∀ fuel : Nat,
    (∀ (v : JValue) (lvl : Nat) (w rest : List Char), jsizeV v ≤ fuel → WsList w →
      GoodRest rest →
      parseValue fuel (w ++ (printValue I lvl v ++ rest)) = some (v, rest)) ∧
    (∀ (v : JValue) (tl : JArray) (lvl : Nat) (w rest : List Char),
      1 + jsizeV v + jsizeA tl ≤ fuel → WsList w →
      parseItems fuel (w ++ (printValue I (lvl + 1) v ++ (printItems I (lvl + 1) tl ++
        (pad I lvl ++ ']' :: rest)))) = some (.cons v tl, rest)) ∧
    (∀ (k : List Char) (v : JValue) (tl : JObject) (lvl : Nat) (w rest : List Char),
      1 + jsizeV v + jsizeO tl ≤ fuel → WsList w →
      parseFields fuel (w ++ ('"' :: (escBody k ++ (':' :: ' ' ::
        (printValue I (lvl + 1) v ++ (printFields I (lvl + 1) tl ++
          (pad I lvl ++ rbrace :: rest))))))) = some (.ocons k v tl, rest)) := by
  intro fuel
  induction fuel with
  | zero =>
    refine ⟨?_, ?_, ?_⟩
    · intro v lvl w rest hsz _ _
      exact absurd hsz (by have := jsizeV_pos v; omega)
    · intro v tl lvl w rest hsz _
      exact absurd hsz (by omega)
    · intro k v tl lvl w rest hsz _
      exact absurd hsz (by omega)
  | succ fuel ih =>
    obtain ⟨ihV, ihA, ihO⟩ := ih
    refine ⟨?_, ?_, ?_⟩
    · intro v lvl w rest hsz hw hr
      cases v with
      | null => simpa [printValue] using parseValue_lit_null fuel rest hw
      | bool b =>
        cases b with
        | true => simpa [printValue] using parseValue_lit_true fuel rest hw
        | false => simpa [printValue] using parseValue_lit_false fuel rest hw
      | num i => simpa [printValue] using parseValue_num fuel i hw hr
      | str s => simpa [printValue, escString] using parseValue_str fuel s hw
      | arr l =>
        cases l with
        | nil => simpa [printValue] using parseValue_arr_nil fuel rest hw
        | cons v tl =>
          have hsz' : 1 + jsizeV v + jsizeA tl ≤ fuel := by
            simp [jsizeV, jsizeA] at hsz
            omega
          have hitems := ihA v tl lvl [] rest hsz' wsList_nil
          have hglue := parseValue_arr_glue fuel I lvl hw v tl (by simpa using hitems)
          simpa [printValue] using hglue
      | obj o =>
        cases o with
        | onil => simpa [printValue] using parseValue_obj_nil fuel rest hw
        | ocons k v tl =>
          have hsz' : 1 + jsizeV v + jsizeO tl ≤ fuel := by
            simp [jsizeV, jsizeO] at hsz
            omega
          have hfields := ihO k v tl lvl [] rest hsz' wsList_nil
          have hglue := parseValue_obj_glue fuel I lvl hw k v tl
            (by simpa [escString] using hfields)
          simpa [printValue, escString] using hglue
    · intro v tl lvl w rest hsz hw
      have hszv : jsizeV v ≤ fuel := by omega
      have hval := ihV v (lvl + 1) w
        (printItems I (lvl + 1) tl ++ (pad I lvl ++ ']' :: rest)) hszv hw
        (goodRest_items I (lvl + 1) lvl tl (']' :: rest))
      cases tl with
      | nil =>
        simp only [printItems, List.nil_append] at hval ⊢
        exact parseItems_last fuel I lvl hval
      | cons v2 tl2 =>
        have h1 := jsizeV_pos v
        have hsz2 : 1 + jsizeV v2 + jsizeA tl2 ≤ fuel := by
          simp [jsizeA] at hsz
          omega
        have htl := ihA v2 tl2 lvl (pad I (lvl + 1)) rest hsz2 (wsList_pad I (lvl + 1))
        simp only [printItems, List.cons_append, List.append_assoc] at hval ⊢
        exact parseItems_more fuel hval htl
    · intro k v tl lvl w rest hsz hw
      have hszv : jsizeV v ≤ fuel := by omega
      have hval := ihV v (lvl + 1) [' ']
        (printFields I (lvl + 1) tl ++ (pad I lvl ++ rbrace :: rest)) hszv wsList_space
        (goodRest_fields I (lvl + 1) lvl tl (rbrace :: rest))
      simp only [List.singleton_append] at hval
      cases tl with
      | onil =>
        simp only [printFields, List.nil_append] at hval ⊢
        exact parseFields_last fuel I lvl hw k hval
      | ocons k2 v2 tl2 =>
        have h1 := jsizeV_pos v
        have hsz2 : 1 + jsizeV v2 + jsizeO tl2 ≤ fuel := by
          simp [jsizeO] at hsz
          omega
        have htl := ihO k2 v2 tl2 lvl (pad I (lvl + 1)) rest hsz2 (wsList_pad I (lvl + 1))
        simp only [printFields, List.cons_append, List.append_assoc] at hval ⊢
        exact parseFields_more fuel hw k hval htl

mutual

/-- The printed form of a value is at least as long as its size. -/
theorem jsizeV_le_length : ∀ (v : JValue) (I lvl : Nat),
    jsizeV v ≤ (printValue I lvl v).length
  | .null, _, _ => by simp [jsizeV, printValue]
  | .bool true, _, _ => by simp [jsizeV, printValue]
  | .bool false, _, _ => by simp [jsizeV, printValue]
  | .num i, I, lvl => by
    simp only [jsizeV, printValue]
    have := intToChars_ne_nil i
    cases h : intToChars i with
    | nil => exact absurd h this
    | cons c cs => simp
  | .str s, _, _ => by simp [jsizeV, printValue, escString]
  | .arr .nil, _, _ => by simp [jsizeV, jsizeA, printValue]
  | .arr (.cons v tl), I, lvl => by
    have h1 := jsizeV_le_length v I (lvl + 1)
    have h2 := jsizeA_le_length tl I (lvl + 1)
    simp only [jsizeV, jsizeA, printValue, pad, List.length_cons, List.length_append]
    omega
  | .obj .onil, _, _ => by simp [jsizeV, jsizeO, printValue]
  | .obj (.ocons k v tl), I, lvl => by
    have h1 := jsizeV_le_length v I (lvl + 1)
    have h2 := jsizeO_le_length tl I (lvl + 1)
    simp only [jsizeV, jsizeO, printValue, pad, List.length_cons, List.length_append]
    omega

/-- The printed item block is at least as long as its size. -/
theorem jsizeA_le_length : ∀ (l : JArray) (I lvl : Nat),
    jsizeA l ≤ (printItems I lvl l).length
  | .nil, _, _ => by simp [jsizeA, printItems]
  | .cons v tl, I, lvl => by
    have h1 := jsizeV_le_length v I lvl
    have h2 := jsizeA_le_length tl I lvl
    simp only [jsizeA, printItems, pad, List.length_cons, List.length_append]
    omega

/-- The printed field block is at least as long as its size. -/
theorem jsizeO_le_length : ∀ (o : JObject) (I lvl : Nat),
    jsizeO o ≤ (printFields I lvl o).length
  | .onil, _, _ => by simp [jsizeO, printFields]
  | .ocons k v tl, I, lvl => by
    have h1 := jsizeV_le_length v I lvl
    have h2 := jsizeO_le_length tl I lvl
    simp only [jsizeO, printFields, pad, List.length_cons, List.length_append]
    omega

end

/-- A dumped document is never the empty string. -/
theorem dumps_ne_nil (I : Nat) (v : JValue) : dumps I v ≠ [] := by
  obtain ⟨c, cs, heq, -, -⟩ := printValue_head I 0 v
  simp [dumps, heq]

/-- Round trip through the modelled `json` module: `loads` returns exactly
the value `dumps` printed, for every indent width. -/
theorem loads_dumps (I : Nat) (v : JValue) : loads (dumps I v) = some v := by
  have hfuel : jsizeV v ≤ (printValue I 0 v).length + 1 :=
    le_trans (jsizeV_le_length v I 0) (by omega)
  have h := (parse_print I ((printValue I 0 v).length + 1)).1 v 0 [] [] hfuel
    wsList_nil goodRest_nil
  simp only [List.nil_append, List.append_nil] at h
  simp [loads, dumps, h, skipWs]

end Js

/-- C6: saving a project list and immediately reading it back — through the
modelled `json.dumps`/`json.loads` and the file host as faithful storage —
yields exactly the list saved, on the provider path (indent 4) and on the
`index.py` path (indent 2). -/
theorem C6_projects_round_trip (projectsPath : String)
    (store : GitHubProvider.ContentStore) (projects : Js.JArray) :
    GitHubProvider.get_projects projectsPath
        (GitHubProvider.save_projects projectsPath store projects) =
      some (.arr projects) ∧
    IndexApp.get_projects projectsPath
        (IndexApp.save_projects_content projectsPath store projects) =
      some (.arr projects) := by
  have h4 := Js.dumps_ne_nil 4 (.arr projects)
  have h2 := Js.dumps_ne_nil 2 (.arr projects)
  constructor
  · simp [GitHubProvider.get_projects, GitHubProvider.save_projects, List.isEmpty_iff,
      h4, Js.loads_dumps]
  · simp [IndexApp.get_projects, IndexApp.save_projects_content, List.isEmpty_iff,
      h2, Js.loads_dumps]

end Portfolio
